import Mathlib

/-!
Shallow embedding of the stock-bot core subsystem: the semantic news store
(`db/repositories/stock_repository.py`), the report cache
(`db/repositories/report_repository.py`, `db/models.py`), the report
orchestrator (`services/llm_service.py`), the chunker configuration
(`collectors/news_api.py`) and the list utilities (`utils/common.py`).

Conventions of the embedding:
* Database tables are Lean lists of row structures; a repository method is a
  pure function from the old store to the new store plus its return value.
  `None` returned by a repository on an exception is `Option.none`; the
  transaction rollback that accompanies it is modelled by returning the
  original store unchanged.
* Time is an instant `t : Int`, in minutes since an epoch, and a timezone is
  an offset in minutes; `datetime.now(tz).date()` is `localDate offset t`.
* The embedding provider is passed in as a function; `aembed_documents`
  may fail (`Option`), mirroring the exception path of the provider.
* Vector distance (pgvector's `cosine_distance` operator) is passed in as a
  function `dist`, since it is computed by the database extension, not by
  repository code.
-/

namespace StockBot

/-! ### Time and business timezone (`utils/common.py`) -/

/-- Minutes in a calendar day. -/
def minutesPerDay : Int := 1440

/-- The calendar date (as a day number) of instant `t` in a timezone given by
its offset from UTC in minutes: `datetime.now(tz).date()`.  `Int.fdiv` rounds
toward negative infinity, matching dates before the epoch. -/
def localDate (tzOffsetMinutes : Int) (t : Int) : Int :=
  (t + tzOffsetMinutes).fdiv minutesPerDay

/-- Offset of the default business timezone `Asia/Seoul` (UTC+9, no DST),
from `BUSINESS_TIMEZONE` in `utils/common.py`. -/
def businessTzOffset : Int := 540

/-- Function `get_today_in_business_timezone` of `utils/common.py`: today's date in the
business timezone. -/
def get_today_in_business_timezone (t : Int) : Int :=
  localDate businessTzOffset t

/-! ### Report cache (`db/models.py` `StockReport`,
`db/repositories/report_repository.py`) -/

/-- A row of the `stock_reports` table.  `created_at` and `updated_at` are
`Date` columns, kept as day numbers.  Unique constraint: `(ticker, created_at)`. -/
structure StockReportRow where
  id : Nat
  ticker : String
  report : String
  created_at : Int
  updated_at : Int
deriving DecidableEq

/-- The `stock_reports` table plus the autoincrement counter. -/
structure ReportStore where
  rows : List StockReportRow
  nextId : Nat
deriving DecidableEq

/-- Schema `StockReportCreate` of `schemas/llm.py`: the DTO inserted by the
orchestrator.  Its validator normalizes any datetime to a date, so
`created_at` is a day number here. -/
structure StockReportCreate where
  ticker : String
  report : String
  created_at : Int
deriving DecidableEq

/-- Key predicate for the `(ticker, created_at)` unique constraint. -/
def reportKey (ticker : String) (d : Int) (row : StockReportRow) : Bool :=
  row.ticker == ticker && row.created_at == d

/-- One row of the `INSERT ... ON CONFLICT (ticker, created_at) DO UPDATE SET
report = excluded.report, updated_at = now()` statement of
`ReportRepository.insert_stock_report`.  `nowDate` is the database clock
(`func.now()` cast to the `Date` column). -/
def upsertReport (store : ReportStore) (r : StockReportCreate) (nowDate : Int) : ReportStore :=
  if store.rows.any (reportKey r.ticker r.created_at) then
    ⟨store.rows.map (fun row =>
      if reportKey r.ticker r.created_at row then
        { row with report := r.report, updated_at := nowDate }
      else row), store.nextId⟩
  else
    ⟨store.rows ++ [⟨store.nextId, r.ticker, r.report, r.created_at, nowDate⟩],
      store.nextId + 1⟩

/-- Method `ReportRepository.insert_stock_report`.  An empty input returns 0 without
touching the database.  Postgres raises if one multi-row `ON CONFLICT DO
UPDATE` statement would update the same row twice, so duplicate keys inside a
single call are the error path (`None`, rollback).  Otherwise the statement
upserts every value row and `rowcount` is the number of value rows. -/
def insert_stock_report (store : ReportStore) (reports : List StockReportCreate)
    (nowDate : Int) : Option Nat × ReportStore :=
  if reports.isEmpty then (some 0, store)
  else if (reports.map (fun r => (r.ticker, r.created_at))).Nodup then
    (some reports.length, reports.foldl (fun s r => upsertReport s r nowDate) store)
  else (none, store)

/-- Method `ReportRepository.get_stock_report_with_date`: select rows matching
`(ticker, created_at = d)` and apply `scalar_one_or_none`; zero rows gives
`None`, more than one row raises, which the method catches and turns into
`None` as well. -/
def get_stock_report_with_date (store : ReportStore) (ticker : String) (d : Int) :
    Option StockReportRow :=
  match store.rows.filter (reportKey ticker d) with
  | [r] => some r
  | _ => none

/-! ### Report generation orchestrator (`services/llm_service.py`) -/

/-- The `today` value computed at the top of
`LLMService.generate_report_with_ticker`: `datetime.now().date()`, i.e. the
date in the *server-local* timezone. -/
def generateReportToday (serverOffset t : Int) : Int :=
  localDate serverOffset t

/-- Outcome of one `generate_report_with_ticker` call: the returned body, the
resulting report store, and how many times the external report-generation
service (`llm_module.generate_report_with_ticker`) was invoked. -/
structure GenReportResult where
  body : String
  store : ReportStore
  generationCalls : Nat
deriving DecidableEq

/-- Method `LLMService.generate_report_with_ticker`, sequential form.  `tCheck` is
the instant of the `datetime.now()` at the cache check, `tPersist` the
instant of the `datetime.now()` used to build `StockReportCreate` (its
validator reduces it to a date) and of the database clock at the persist
step; `genBody` is the text produced by the external generation service if
it is invoked.  A failed persist is only logged: the generated body is
returned regardless, so the store component of `insert_stock_report` (the
original store on error) is used as-is. -/
def generate_report_with_ticker (store : ReportStore) (ticker : String)
    (tCheck tPersist serverOffset : Int) (genBody : String) : GenReportResult :=
  let today := localDate serverOffset tCheck
  match get_stock_report_with_date store ticker today with
  | some r => ⟨r.report, store, 0⟩
  | none =>
    let rc : StockReportCreate := ⟨ticker, genBody, localDate serverOffset tPersist⟩
    ⟨genBody, (insert_stock_report store [rc] (localDate serverOffset tPersist)).2, 1⟩

/-! ### Concurrent orchestrator runs (claim about locking)

`generate_report_with_ticker` contains no lock: its only suspension-separated
atomic phases, as far as the report cache is concerned, are (1) the cache
check, (2) the external generation call, (3) the persist.  The module-level
`_llm_lock` of `dependencies.py` is a single global lock used only inside
`get_llm_service` to guard singleton construction, not report generation.
The small-step system below interleaves several callers of
`generate_report_with_ticker` for one ticker on one business date `D`:
a schedule picks which caller performs its next atomic phase. -/

/-- The control point of one concurrent caller. -/
inductive CallerPhase where
  /-- about to run the cache check -/
  | start
  /-- cache check missed; about to invoke the generation service -/
  | needGen
  /-- generation returned `body`; about to persist -/
  | ready (body : String)
  /-- returned `ret` to its caller -/
  | finished (ret : String)
deriving DecidableEq

/-- One concurrent caller: its phase, and whether it has invoked the
external generation service. -/
structure Caller where
  phase : CallerPhase
  generated : Bool
deriving DecidableEq

/-- Shared state of the interleaved system: the report cache, the callers,
and the total number of external generation invocations so far. -/
structure LLMSystem where
  store : ReportStore
  callers : List Caller
  invocations : Nat
deriving DecidableEq

/-- Initial system: `n` callers all about to enter `generate_report_with_ticker`. -/
def initSystem (store : ReportStore) (n : Nat) : LLMSystem :=
  ⟨store, List.replicate n ⟨CallerPhase.start, false⟩, 0⟩

/-- Caller `i` performs its next atomic phase of
`generate_report_with_ticker` (ticker fixed, all clock reads on date `D`);
`bodies k` is what the external generation service returns on its `k`-th
invocation.  A caller index out of range, or a finished caller, is a no-op. -/
def stepCaller (ticker : String) (D : Int) (bodies : Nat → String)
    (sys : LLMSystem) (i : Nat) : LLMSystem :=
  match sys.callers[i]? with
  | none => sys
  | some c =>
    match c.phase with
    | CallerPhase.start =>
      match get_stock_report_with_date sys.store ticker D with
      | some r =>
        ⟨sys.store, sys.callers.set i ⟨CallerPhase.finished r.report, c.generated⟩,
          sys.invocations⟩
      | none =>
        ⟨sys.store, sys.callers.set i ⟨CallerPhase.needGen, c.generated⟩,
          sys.invocations⟩
    | CallerPhase.needGen =>
      ⟨sys.store, sys.callers.set i ⟨CallerPhase.ready (bodies sys.invocations), true⟩,
        sys.invocations + 1⟩
    | CallerPhase.ready body =>
      ⟨(insert_stock_report sys.store [⟨ticker, body, D⟩] D).2,
        sys.callers.set i ⟨CallerPhase.finished body, c.generated⟩,
        sys.invocations⟩
    | CallerPhase.finished _ => sys

/-- Run a whole interleaving schedule. -/
def runSchedule (ticker : String) (D : Int) (bodies : Nat → String)
    (sched : List Nat) (sys : LLMSystem) : LLMSystem :=
  sched.foldl (stepCaller ticker D bodies) sys

/-! ### News store (`db/models.py` `StockNews` / `StockNewsChunk`,
`db/repositories/stock_repository.py`) -/

/-- An embedding vector (pgvector values, as rationals). -/
abbrev EmbeddingVec := List ℚ

/-- The dimension of the `Vector(768)` column of `stock_news_chunks` and of
the `expected_dim` check in `get_stock_news`. -/
def embeddingDim : Nat := 768

/-- A row of the `stock_news` table.  `url` carries a uniqueness
constraint. -/
structure StockNewsRow where
  id : Nat
  ticker : String
  title : String
  full_content : String
  url : String
deriving DecidableEq

/-- A row of the `stock_news_chunks` table: ticker denormalized from the
parent, foreign key `parent_id` to `stock_news.id`, embedding vector. -/
structure StockNewsChunkRow where
  id : Nat
  ticker : String
  parent_id : Nat
  embedding : EmbeddingVec
  content : String
deriving DecidableEq

/-- The news store: both tables plus their autoincrement counters. -/
structure NewsStore where
  news : List StockNewsRow
  chunks : List StockNewsChunkRow
  nextNewsId : Nat
  nextChunkId : Nat
deriving DecidableEq

/-- Schema `StockNewsCreate` of `schemas/stock.py` (the fields the insert uses). -/
structure StockNewsCreate where
  ticker : String
  title : String
  full_content : String
  url : String
deriving DecidableEq

/-- Schema `StockNewsChunkCreate` of `schemas/stock.py`: text-only chunk, the
embedding is generated in the repository. -/
structure StockNewsChunkCreate where
  ticker : String
  content : String
deriving DecidableEq

/-- Chunk rows built from `(ticker, content, embedding)` triples with ids
from `firstId` and the freshly inserted parent id. -/
def buildChunkRows (firstId parentId : Nat)
    (chunkData : List (StockNewsChunkCreate × EmbeddingVec)) : List StockNewsChunkRow :=
  chunkData.enum.map (fun p =>
    ⟨firstId + p.1, p.2.1.ticker, parentId, p.2.2, p.2.1.content⟩)

/-- Method `StockRepository.insert_stock_news`.

Order transcribed from the source: (1) when chunks were supplied, call
`aembed_documents` on their contents — a failure there is logged and
re-raised, reaching the outer handler, which rolls back and returns `None`;
(2) insert the parent with `ON CONFLICT (url) DO NOTHING RETURNING id` — no
returned id means the URL already exists and the call returns `0` having
changed nothing; (3) insert the chunk rows (Python `zip` truncates to the
shorter of chunks/embeddings) and return `1 + chunk_count`.  A vector whose
length is not 768 is rejected by the `Vector(768)` column at step (3); the
exception rolls the whole transaction back and the call returns `None`. -/
def insert_stock_news (embedDocs : List String → Option (List EmbeddingVec))
    (store : NewsStore) (news : StockNewsCreate) (chunks : List StockNewsChunkCreate) :
    Option Nat × NewsStore :=
  let embRes : Option (List (StockNewsChunkCreate × EmbeddingVec)) :=
    if chunks.isEmpty then some []
    else match embedDocs (chunks.map (fun c => c.content)) with
      | none => none
      | some es => some (chunks.zip es)
  match embRes with
  | none => (none, store)
  | some chunkData =>
    if store.news.any (fun r => r.url == news.url) then
      (some 0, store)
    else
      let pid := store.nextNewsId
      let parentRow : StockNewsRow := ⟨pid, news.ticker, news.title, news.full_content, news.url⟩
      if chunkData.all (fun c => c.2.length == embeddingDim) then
        let chunkRows := buildChunkRows store.nextChunkId pid chunkData
        (some (1 + chunkRows.length),
          ⟨store.news ++ [parentRow], store.chunks ++ chunkRows,
            pid + 1, store.nextChunkId + chunkRows.length⟩)
      else (none, store)

/-- The `ORDER BY distance ASC` comparison of the candidate subquery. -/
def chunkDistLe (dist : EmbeddingVec → EmbeddingVec → ℚ) (qv : EmbeddingVec)
    (a b : StockNewsChunkRow) : Bool :=
  decide (dist qv a.embedding ≤ dist qv b.embedding)

/-- The candidate subquery of `StockRepository.get_stock_news`: chunks of the
given ticker, ordered by ascending cosine distance to the query vector,
limited to `candidate_pool`.  `dist` is pgvector's `cosine_distance`. -/
def candidateChunks (dist : EmbeddingVec → EmbeddingVec → ℚ) (qv : EmbeddingVec)
    (store : NewsStore) (ticker : String) (candidate_pool : Nat) :
    List StockNewsChunkRow :=
  ((store.chunks.filter (fun c => c.ticker == ticker)).mergeSort
    (chunkDistLe dist qv)).take candidate_pool

/-- The aggregate `SUM(1 - distance)` of the candidate chunks grouped under
parent id `pid`. -/
def parentScore (dist : EmbeddingVec → EmbeddingVec → ℚ) (qv : EmbeddingVec)
    (store : NewsStore) (ticker : String) (candidate_pool : Nat) (pid : Nat) : ℚ :=
  (((candidateChunks dist qv store ticker candidate_pool).filter
      (fun c => c.parent_id == pid)).map (fun c => 1 - dist qv c.embedding)).sum

/-- The join-and-group stage of the `get_stock_news` query: `stock_news`
rows joined to the candidate subquery on `id = parent_id` (inner join, so
only parents owning at least one candidate chunk appear), grouped by
`stock_news.id`, each group paired with its `SUM(1 - distance)` score. -/
def scoredParents (dist : EmbeddingVec → EmbeddingVec → ℚ) (qv : EmbeddingVec)
    (store : NewsStore) (ticker : String) (candidate_pool : Nat) :
    List (StockNewsRow × ℚ) :=
  (store.news.filter (fun n =>
    (candidateChunks dist qv store ticker candidate_pool).any
      (fun c => c.parent_id == n.id))).map
    (fun n => (n, parentScore dist qv store ticker candidate_pool n.id))

/-- The `ORDER BY SUM(1 - distance) DESC` comparison. -/
def scoreDescLe (a b : StockNewsRow × ℚ) : Bool :=
  decide (b.2 ≤ a.2)

/-- The `ORDER BY SUM(1 - distance) DESC` stage. -/
def rankedParents (dist : EmbeddingVec → EmbeddingVec → ℚ) (qv : EmbeddingVec)
    (store : NewsStore) (ticker : String) (candidate_pool : Nat) :
    List (StockNewsRow × ℚ) :=
  (scoredParents dist qv store ticker candidate_pool).mergeSort scoreDescLe

/-- Method `StockRepository.get_stock_news`: embed the query; raise `ValueError`
when the query embedding does not have the expected dimension (before any
session is opened); otherwise join the candidate subquery to `stock_news`
on `id = parent_id`, group by `stock_news.id`, score each group by
`SUM(1 - distance)`, order by that score descending and take `top_k`. -/
def get_stock_news (embedQuery : String → EmbeddingVec)
    (dist : EmbeddingVec → EmbeddingVec → ℚ) (store : NewsStore)
    (ticker query : String) (top_k candidate_pool : Nat) :
    Except String (List StockNewsRow) :=
  let qv := embedQuery query
  if qv.length == embeddingDim then
    Except.ok (((rankedParents dist qv store ticker candidate_pool).take top_k).map
      (fun p => p.1))
  else Except.error "query_embedding must have length 768"

/-! ### Chunker configuration (`collectors/news_api.py`
`NewsDataCollector.__init__`, explicit-arguments path) -/

/-- Resolution of the chunking configuration when `chunk_size` and
`chunk_overlap` are given explicitly: the values are taken as-is, then the
logical constraint `chunk_overlap < chunk_size` is enforced by clamping
`chunk_overlap` to `max 0 (chunk_size - 1)` (with a logged warning) instead
of raising.  Returns `(resolved_chunk_size, resolved_chunk_overlap)`. -/
def resolveChunkParams (chunk_size chunk_overlap : Int) : Int × Int :=
  if chunk_overlap ≥ chunk_size then (chunk_size, max 0 (chunk_size - 1))
  else (chunk_size, chunk_overlap)

/-! ### `utils/common.py` `chunk_list` -/

/-- The loop `for i in range(0, len(lst), n): yield lst[i:i + n]` for a
positive step `n`.  The `n = 0` guard is unreachable from `chunk_list` and
only serves termination. -/
def chunkListGo (n : Nat) (lst : List α) : List (List α) :=
  if h : lst.isEmpty || n == 0 then []
  else lst.take n :: chunkListGo n (lst.drop n)
termination_by lst.length
decreasing_by
  simp only [Bool.or_eq_true, List.isEmpty_iff, beq_iff_eq, not_or] at h
  have h1 : lst.length ≠ 0 := by
    simpa [List.length_eq_zero] using h.1
  simp only [List.length_drop]
  omega

/-- Function `chunk_list` of `utils/common.py`: raises `ValueError` when `n ≤ 0`,
otherwise yields the slices `lst[i:i + n]` for `i = 0, n, 2n, ...`. -/
def chunk_list (lst : List α) (n : Int) : Except String (List (List α)) :=
  if n ≤ 0 then Except.error "Chunk size n must be greater than 0"
  else Except.ok (chunkListGo n.toNat lst)

/-! ## Helper lemmas about `chunkListGo` -/

theorem chunkListGo_eq_nil_iff {α : Type} (n : Nat) (lst : List α) :
    chunkListGo n lst = [] ↔ (lst = [] ∨ n = 0) := by
  constructor
  · intro h
    rw [chunkListGo] at h
    split at h
    · next hg => simpa [List.isEmpty_iff] using hg
    · simp at h
  · intro h
    have hg : (lst.isEmpty || n == 0) = true := by
      rcases h with h | h <;> simp [h]
    rw [chunkListGo, dif_pos hg]

theorem chunkListGo_flatten {α : Type} (n : Nat) (hn : n ≠ 0) (lst : List α) :
    (chunkListGo n lst).flatten = lst := by
  generalize hlen : lst.length = len
  induction len using Nat.strong_induction_on generalizing lst with
  | _ len ih =>
    rw [chunkListGo]
    split
    · next hg =>
      have he : lst = [] := by
        rcases (by simpa using hg : lst.isEmpty = true ∨ n = 0) with h | h
        · simpa [List.isEmpty_iff] using h
        · exact absurd h hn
      simp [he]
    · next hg =>
      simp only [Bool.or_eq_true, List.isEmpty_iff, beq_iff_eq, not_or] at hg
      have hlt : (lst.drop n).length < len := by
        subst hlen
        simp only [List.length_drop]
        have : lst.length ≠ 0 := by simpa [List.length_eq_zero] using hg.1
        omega
      rw [List.flatten_cons, ih _ hlt (lst.drop n) rfl]
      exact List.take_append_drop n lst

theorem chunkListGo_length_le {α : Type} (n : Nat) (lst : List α) :
    ∀ c ∈ chunkListGo n lst, c.length ≤ n := by
  generalize hlen : lst.length = len
  induction len using Nat.strong_induction_on generalizing lst with
  | _ len ih =>
    rw [chunkListGo]
    split
    · simp
    · next hg =>
      simp only [Bool.or_eq_true, List.isEmpty_iff, beq_iff_eq, not_or] at hg
      have hlt : (lst.drop n).length < len := by
        subst hlen
        simp only [List.length_drop]
        have : lst.length ≠ 0 := by simpa [List.length_eq_zero] using hg.1
        omega
      intro c hc
      rcases List.mem_cons.1 hc with rfl | hc
      · exact List.length_take_le n lst
      · exact ih _ hlt (lst.drop n) rfl c hc

theorem chunkListGo_dropLast_length {α : Type} (n : Nat) (hn : n ≠ 0) (lst : List α) :
    ∀ c ∈ (chunkListGo n lst).dropLast, c.length = n := by
  generalize hlen : lst.length = len
  induction len using Nat.strong_induction_on generalizing lst with
  | _ len ih =>
    rw [chunkListGo]
    split
    · simp
    · next hg =>
      simp only [Bool.or_eq_true, List.isEmpty_iff, beq_iff_eq, not_or] at hg
      have hlt : (lst.drop n).length < len := by
        subst hlen
        simp only [List.length_drop]
        have : lst.length ≠ 0 := by simpa [List.length_eq_zero] using hg.1
        omega
      by_cases hrest : chunkListGo n (lst.drop n) = []
      · rw [hrest]
        simp
      · rw [List.dropLast_cons_of_ne_nil hrest]
        intro c hc
        rcases List.mem_cons.1 hc with rfl | hc
        · have hd : lst.drop n ≠ [] := by
            intro h
            exact hrest ((chunkListGo_eq_nil_iff n _).2 (Or.inl h))
          have hdl : n < lst.length := by
            simpa [List.length_eq_zero, List.length_drop] using hd
          simp only [List.length_take]
          omega
        · exact ih _ hlt (lst.drop n) rfl c hc

/-! ## Claim theorems -/

/-- C10: for every list `lst` and integer `n`, `chunk_list lst n` raises
`ValueError` if and only if `n ≤ 0`; for `n > 0` it yields sublists whose
concatenation is `lst`, every sublist but possibly the last having length
exactly `n` and none exceeding `n`. -/
theorem chunk_list_spec {α : Type} (lst : List α) (n : Int) :
    ((∃ msg, chunk_list lst n = Except.error msg) ↔ n ≤ 0) ∧
    (0 < n → ∃ cs, chunk_list lst n = Except.ok cs ∧ cs.flatten = lst ∧
      (∀ c ∈ cs.dropLast, (c.length : Int) = n) ∧ ∀ c ∈ cs, (c.length : Int) ≤ n) := by
  constructor
  · constructor
    · rintro ⟨msg, hmsg⟩
      by_contra hpos
      unfold chunk_list at hmsg
      rw [if_neg hpos] at hmsg
      simp at hmsg
    · intro hle
      exact ⟨_, by unfold chunk_list; rw [if_pos hle]⟩
  · intro hpos
    have hn0 : n.toNat ≠ 0 := by omega
    refine ⟨chunkListGo n.toNat lst, ?_, chunkListGo_flatten _ hn0 _, ?_, ?_⟩
    · unfold chunk_list
      rw [if_neg (by omega)]
    · intro c hc
      have := chunkListGo_dropLast_length n.toNat hn0 lst c hc
      omega
    · intro c hc
      have := chunkListGo_length_le n.toNat lst c hc
      omega

/-- Witness for C10 at `lst = [1,2,3,4,5]`, `n = 2`. -/
theorem chunk_list_spec_witness :
    (0 : Int) < 2 ∧
    (∃ cs, chunk_list [1, 2, 3, 4, 5] (2 : Int) = Except.ok cs ∧
      cs.flatten = [1, 2, 3, 4, 5] ∧
      (∀ c ∈ cs.dropLast, (c.length : Int) = 2) ∧ ∀ c ∈ cs, (c.length : Int) ≤ 2) :=
  ⟨by decide, (chunk_list_spec [1, 2, 3, 4, 5] 2).2 (by decide)⟩

/-- C9: for every explicitly configured `(chunk_size, chunk_overlap)` with
`chunk_size` positive and `chunk_overlap ≥ chunk_size`, the configuration
step of `NewsDataCollector.__init__` clamps the effective overlap to
`chunk_size - 1` (keeping the chunk size) instead of raising; the function
is total, so construction never fails on such inputs. -/
theorem resolveChunkParams_clamps (chunk_size chunk_overlap : Int)
    (hpos : 0 < chunk_size) (hov : chunk_size ≤ chunk_overlap) :
    resolveChunkParams chunk_size chunk_overlap = (chunk_size, chunk_size - 1) := by
  unfold resolveChunkParams
  rw [if_pos hov]
  simp only [Prod.mk.injEq, true_and]
  omega

/-- Witness for C9 at `chunk_size = 5`, `chunk_overlap = 7`. -/
theorem resolveChunkParams_clamps_witness :
    (0 : Int) < 5 ∧ (5 : Int) ≤ 7 ∧ resolveChunkParams 5 7 = (5, 4) :=
  ⟨by decide, by decide, resolveChunkParams_clamps 5 7 (by decide) (by decide)⟩

/-- C2: for every document and chunk list, when a news row with the same URL
is already stored (and the embedding provider does not itself fail first),
`insert_stock_news` is a no-op: it returns `0` — not an error — and the
store, in particular the existing parent row and its original chunk rows,
is unchanged. -/
theorem insert_stock_news_duplicate_noop
    (embedDocs : List String → Option (List EmbeddingVec)) (store : NewsStore)
    (news : StockNewsCreate) (chunks : List StockNewsChunkCreate)
    (hemb : chunks = [] ∨ embedDocs (chunks.map (fun c => c.content)) ≠ none)
    (hdup : store.news.any (fun r => r.url == news.url) = true) :
    insert_stock_news embedDocs store news chunks = (some 0, store) := by
  unfold insert_stock_news
  rcases hemb with h | h
  · subst h
    simp [hdup]
  · rcases he : embedDocs (chunks.map (fun c => c.content)) with _ | es
    · exact absurd he h
    · rcases hc : chunks.isEmpty <;> simp [hc, he, hdup]

/-- Witness for C2: a duplicate URL with no chunks supplied. -/
theorem insert_stock_news_duplicate_noop_witness :
    (([] : List StockNewsChunkCreate) = [] ∨
      (fun (_ : List String) => (none : Option (List EmbeddingVec)))
        (([] : List StockNewsChunkCreate).map (fun c => c.content)) ≠ none) ∧
    ((⟨[⟨1, "AAPL", "t", "c", "u1"⟩], [], 2, 1⟩ : NewsStore)).news.any
      (fun r => r.url == (⟨"AAPL", "t2", "c2", "u1"⟩ : StockNewsCreate).url) = true ∧
    insert_stock_news (fun _ => none) ⟨[⟨1, "AAPL", "t", "c", "u1"⟩], [], 2, 1⟩
      ⟨"AAPL", "t2", "c2", "u1"⟩ [] =
      (some 0, ⟨[⟨1, "AAPL", "t", "c", "u1"⟩], [], 2, 1⟩) :=
  ⟨Or.inl rfl, by decide,
    insert_stock_news_duplicate_noop (fun _ => none) ⟨[⟨1, "AAPL", "t", "c", "u1"⟩], [], 2, 1⟩
      ⟨"AAPL", "t2", "c2", "u1"⟩ [] (Or.inl rfl) (by decide)⟩

/-- C3: embedding generation runs before any row is inserted; on every input
whose (nonempty) chunk list fails to embed, `insert_stock_news` returns
`None` and the store is unchanged — no parent row and no chunk rows are
added, regardless of whether the URL was new. -/
theorem insert_stock_news_embed_failure
    (embedDocs : List String → Option (List EmbeddingVec)) (store : NewsStore)
    (news : StockNewsCreate) (chunks : List StockNewsChunkCreate)
    (hne : chunks ≠ [])
    (hfail : embedDocs (chunks.map (fun c => c.content)) = none) :
    insert_stock_news embedDocs store news chunks = (none, store) := by
  unfold insert_stock_news
  have hc : chunks.isEmpty = false := by
    simpa [List.isEmpty_iff] using hne
  simp [hc, hfail]

/-- Witness for C3: one chunk, failing provider, fresh URL. -/
theorem insert_stock_news_embed_failure_witness :
    ([⟨"AAPL", "body"⟩] : List StockNewsChunkCreate) ≠ [] ∧
    (fun (_ : List String) => (none : Option (List EmbeddingVec)))
      (([⟨"AAPL", "body"⟩] : List StockNewsChunkCreate).map (fun c => c.content)) = none ∧
    insert_stock_news (fun _ => none) ⟨[], [], 1, 1⟩ ⟨"AAPL", "t", "c", "u1"⟩
      [⟨"AAPL", "body"⟩] = (none, ⟨[], [], 1, 1⟩) :=
  ⟨by decide, rfl,
    insert_stock_news_embed_failure (fun _ => none) ⟨[], [], 1, 1⟩ ⟨"AAPL", "t", "c", "u1"⟩
      [⟨"AAPL", "body"⟩] (by decide) rfl⟩

/-- C8: embedding dimension 768 is enforced on both paths.  Inserting a new
document whose generated chunk embeddings contain a vector of the wrong
dimension fails (returns `None`) and leaves the store unchanged, because the
`Vector(768)` column rejects the row and the transaction rolls back; and
`get_stock_news` rejects a query embedding of the wrong dimension with the
`ValueError` message before touching storage — the error is the same for
every store. -/
theorem embedding_dimension_enforced
    (embedDocs : List String → Option (List EmbeddingVec)) (store : NewsStore)
    (news : StockNewsCreate) (chunks : List StockNewsChunkCreate)
    (es : List EmbeddingVec)
    (embedQuery : String → EmbeddingVec) (dist : EmbeddingVec → EmbeddingVec → ℚ)
    (ticker query : String) (top_k candidate_pool : Nat)
    (hnew : store.news.any (fun r => r.url == news.url) = false)
    (hemb : embedDocs (chunks.map (fun c => c.content)) = some es)
    (hlen : es.length = chunks.length) (hne : chunks ≠ [])
    (hbad : ∃ e ∈ es, e.length ≠ embeddingDim)
    (hq : (embedQuery query).length ≠ embeddingDim) :
    insert_stock_news embedDocs store news chunks = (none, store) ∧
    ∀ s : NewsStore, get_stock_news embedQuery dist s ticker query top_k candidate_pool =
      Except.error "query_embedding must have length 768" := by
  constructor
  · unfold insert_stock_news
    have hc : chunks.isEmpty = false := by
      simpa [List.isEmpty_iff] using hne
    have hall : (chunks.zip es).all (fun c => c.2.length == embeddingDim) = false := by
      obtain ⟨e, he, hbadlen⟩ := hbad
      have hsnd : (chunks.zip es).map Prod.snd = es :=
        List.map_snd_zip chunks es (le_of_eq hlen)
      have : e ∈ (chunks.zip es).map Prod.snd := by rw [hsnd]; exact he
      obtain ⟨p, hp, hpe⟩ := List.mem_map.1 this
      refine List.all_eq_false.2 ⟨p, hp, ?_⟩
      simp [hpe, hbadlen]
    simp [hc, hemb, hnew, hall]
  · intro s
    unfold get_stock_news
    have : ((embedQuery query).length == embeddingDim) = false := by
      simpa using hq
    simp [this]

/-- Witness for C8: a single chunk embedded to the empty vector and an empty
query embedding, checked on two different stores. -/
theorem embedding_dimension_enforced_witness :
    ((⟨[], [], 1, 1⟩ : NewsStore)).news.any (fun r => r.url == "u1") = false ∧
    ([([] : EmbeddingVec)]).length = ([⟨"AAPL", "body"⟩] : List StockNewsChunkCreate).length ∧
    (∃ e ∈ [([] : EmbeddingVec)], e.length ≠ embeddingDim) ∧
    ((fun (_ : String) => ([] : EmbeddingVec)) "q").length ≠ embeddingDim ∧
    insert_stock_news (fun _ => some [[]]) ⟨[], [], 1, 1⟩ ⟨"AAPL", "t", "c", "u1"⟩
      [⟨"AAPL", "body"⟩] = (none, ⟨[], [], 1, 1⟩) ∧
    ∀ s : NewsStore, get_stock_news (fun _ => []) (fun _ _ => 0) s "AAPL" "q" 5 20 =
      Except.error "query_embedding must have length 768" := by
  have h := embedding_dimension_enforced (fun _ => some [[]]) ⟨[], [], 1, 1⟩
    ⟨"AAPL", "t", "c", "u1"⟩ [⟨"AAPL", "body"⟩] [[]] (fun _ => []) (fun _ _ => 0)
    "AAPL" "q" 5 20 (by decide) rfl (by decide) (by decide) (by decide) (by decide)
  exact ⟨by decide, by decide, by decide, by decide, h.1, h.2⟩

/-! ## Helper lemmas about the report upsert -/

theorem countP_map_of_preserved {α : Type} (l : List α) (f : α → α) (p : α → Bool)
    (h : ∀ a, p (f a) = p a) : (l.map f).countP p = l.countP p := by
  induction l with
  | nil => rfl
  | cons a l ih => simp [List.countP_cons, ih, h a]

theorem upsertReport_countKey (store : ReportStore) (tk body : String) (d nowDate : Int) :
    (upsertReport store ⟨tk, body, d⟩ nowDate).rows.countP (reportKey tk d) =
      if store.rows.any (reportKey tk d) then store.rows.countP (reportKey tk d)
      else store.rows.countP (reportKey tk d) + 1 := by
  unfold upsertReport
  split
  · exact countP_map_of_preserved _ _ _ (fun row => by
      by_cases hk : reportKey tk d row = true
      · simp only [if_pos hk, hk]
        simp [reportKey] at hk ⊢
        exact hk
      · simp [if_neg hk])
  · simp [List.countP_append, List.countP_cons, reportKey]

theorem upsertReport_key_rows (store : ReportStore) (tk body : String) (d nowDate : Int) :
    ∀ row ∈ (upsertReport store ⟨tk, body, d⟩ nowDate).rows,
      reportKey tk d row = true →
        row.report = body ∧ row.updated_at = nowDate := by
  unfold upsertReport
  split
  · next hany =>
    intro row hrow hkey
    obtain ⟨src, hsrc, hmap⟩ := List.mem_map.1 hrow
    by_cases hk : reportKey tk d src = true
    · rw [if_pos hk] at hmap
      subst hmap
      exact ⟨rfl, rfl⟩
    · rw [if_neg hk] at hmap
      subst hmap
      exact absurd hkey hk
  · next hany =>
    intro row hrow hkey
    rcases List.mem_append.1 hrow with hold | hnew
    · have := (List.any_eq_false.1 (by simpa using hany)) row hold
      exact absurd hkey (by simp [this])
    · have : row = ⟨store.nextId, tk, body, d, nowDate⟩ := by
        simpa using hnew
      subst this
      exact ⟨rfl, rfl⟩

theorem insert_stock_report_singleton (store : ReportStore) (r : StockReportCreate)
    (nowDate : Int) :
    insert_stock_report store [r] nowDate = (some 1, upsertReport store r nowDate) := by
  simp [insert_stock_report]

/-- C4: calling `insert_stock_report` twice for the same `(ticker,
created_at)` key with two different bodies leaves exactly one stored row for
that key; that row holds the second body and its `updated_at` is the time of
the second call.  The hypothesis is the `(ticker, created_at)` uniqueness
constraint on the initial store. -/
theorem insert_stock_report_upsert (store : ReportStore) (ticker : String)
    (d : Int) (b1 b2 : String) (t1 t2 : Int)
    (hkey : store.rows.countP (reportKey ticker d) ≤ 1) :
    ((insert_stock_report (insert_stock_report store [⟨ticker, b1, d⟩] t1).2
        [⟨ticker, b2, d⟩] t2).2.rows.countP (reportKey ticker d) = 1) ∧
    ∀ row ∈ (insert_stock_report (insert_stock_report store [⟨ticker, b1, d⟩] t1).2
        [⟨ticker, b2, d⟩] t2).2.rows,
      reportKey ticker d row = true → row.report = b2 ∧ row.updated_at = t2 := by
  rw [insert_stock_report_singleton, insert_stock_report_singleton]
  set s1 := upsertReport store ⟨ticker, b1, d⟩ t1 with hs1
  have hcount1 : s1.rows.countP (reportKey ticker d) = 1 := by
    rw [hs1, upsertReport_countKey]
    split
    · next hany =>
      have : 0 < store.rows.countP (reportKey ticker d) := by
        rw [List.countP_pos]
        simpa [List.any_eq_true] using hany
      omega
    · next hany =>
      have : store.rows.countP (reportKey ticker d) = 0 := by
        rw [List.countP_eq_zero]
        exact List.any_eq_false.1 (by simpa using hany)
      omega
  have hcount2 : (upsertReport s1 ⟨ticker, b2, d⟩ t2).rows.countP (reportKey ticker d) = 1 := by
    rw [upsertReport_countKey]
    split
    · next => exact hcount1
    · next hany =>
      have : s1.rows.countP (reportKey ticker d) = 0 := by
        rw [List.countP_eq_zero]
        exact List.any_eq_false.1 (by simpa using hany)
      omega
  exact ⟨hcount2, upsertReport_key_rows s1 ticker b2 d t2⟩

/-- Witness for C4: an empty store, key `("AAPL", day 0)`, bodies `"r1"` then
`"r2"` at times 0 and 1. -/
theorem insert_stock_report_upsert_witness :
    (⟨[], 0⟩ : ReportStore).rows.countP (reportKey "AAPL" 0) ≤ 1 ∧
    (((insert_stock_report (insert_stock_report ⟨[], 0⟩ [⟨"AAPL", "r1", 0⟩] 0).2
        [⟨"AAPL", "r2", 0⟩] 1).2.rows.countP (reportKey "AAPL" 0) = 1) ∧
      ∀ row ∈ (insert_stock_report (insert_stock_report ⟨[], 0⟩ [⟨"AAPL", "r1", 0⟩] 0).2
          [⟨"AAPL", "r2", 0⟩] 1).2.rows,
        reportKey "AAPL" 0 row = true → row.report = "r2" ∧ row.updated_at = 1) :=
  ⟨by decide, insert_stock_report_upsert ⟨[], 0⟩ "AAPL" 0 "r1" "r2" 0 1 (by decide)⟩

/-- C6: `generate_report_with_ticker` computes `today` with
`datetime.now().date()` — the *server-local* date — for both the cache
lookup and the persisted `created_at`, not with
`get_today_in_business_timezone`.  At instant `t = 960` (16:00 UTC on epoch
day 0) with the server in UTC (offset 0), the code's `today` is day 0 while
the business-timezone (`Asia/Seoul`) date is day 1: a report cached under
the business date (day 1) is missed and the code regenerates. -/
theorem generate_report_today_is_server_local :
    generateReportToday 0 960 = 0 ∧
    get_today_in_business_timezone 960 = 1 ∧
    generateReportToday 0 960 ≠ get_today_in_business_timezone 960 ∧
    (generate_report_with_ticker ⟨[⟨0, "AAPL", "cached", 1, 1⟩], 1⟩
      "AAPL" 960 960 0 "fresh").generationCalls = 1 ∧
    (generate_report_with_ticker ⟨[⟨0, "AAPL", "cached", 1, 1⟩], 1⟩
      "AAPL" 960 960 0 "fresh").body = "fresh" := by
  decide

/-- Counterexample to C5 as stated: two sequential calls at `t = 930` and
`t = 1470` fall on the *same business day* (Asia/Seoul day 1) but different
server-local (UTC) days, so the second call misses the cache and invokes the
generation service again instead of returning the first call's body. -/
theorem generate_report_same_business_day_regenerates :
    get_today_in_business_timezone 930 = get_today_in_business_timezone 1470 ∧
    (generate_report_with_ticker ⟨[], 0⟩ "AAPL" 930 930 0 "r1").body = "r1" ∧
    (generate_report_with_ticker
        (generate_report_with_ticker ⟨[], 0⟩ "AAPL" 930 930 0 "r1").store
        "AAPL" 1470 1470 0 "r2").generationCalls = 1 ∧
    (generate_report_with_ticker
        (generate_report_with_ticker ⟨[], 0⟩ "AAPL" 930 930 0 "r1").store
        "AAPL" 1470 1470 0 "r2").body = "r2" := by
  decide

/-- C5 (amended): two sequential `generate_report_with_ticker` calls whose
clock reads fall on the same *server-local* calendar day — in particular any
two same-day calls when the server runs in the business timezone — give a
second call that returns the body produced by the first call and performs
zero invocations of the external generation service.  The `countP`
hypothesis is the `(ticker, created_at)` uniqueness constraint. -/
theorem generate_report_second_call_cached (store : ReportStore) (ticker : String)
    (t1 t2 t3 t4 serverOffset : Int) (g1 g2 : String)
    (hkey : store.rows.countP (reportKey ticker (localDate serverOffset t1)) ≤ 1)
    (h2 : localDate serverOffset t2 = localDate serverOffset t1)
    (h3 : localDate serverOffset t3 = localDate serverOffset t1) :
    (generate_report_with_ticker
        (generate_report_with_ticker store ticker t1 t2 serverOffset g1).store
        ticker t3 t4 serverOffset g2).generationCalls = 0 ∧
    (generate_report_with_ticker
        (generate_report_with_ticker store ticker t1 t2 serverOffset g1).store
        ticker t3 t4 serverOffset g2).body =
      (generate_report_with_ticker store ticker t1 t2 serverOffset g1).body := by
  cases hg : get_stock_report_with_date store ticker (localDate serverOffset t1) with
  | some r =>
    have hfirst : generate_report_with_ticker store ticker t1 t2 serverOffset g1 =
        ⟨r.report, store, 0⟩ := by
      unfold generate_report_with_ticker
      dsimp only
      rw [hg]
    have hsecond : generate_report_with_ticker store ticker t3 t4 serverOffset g2 =
        ⟨r.report, store, 0⟩ := by
      unfold generate_report_with_ticker
      dsimp only
      rw [h3, hg]
    rw [hfirst, hsecond]
    exact ⟨rfl, rfl⟩
  | none =>
    have hfilter : store.rows.filter (reportKey ticker (localDate serverOffset t1)) = [] := by
      rcases hl : store.rows.filter (reportKey ticker (localDate serverOffset t1)) with
        _ | ⟨a, _ | ⟨b, tl⟩⟩
      · rfl
      · exfalso
        have hsome : get_stock_report_with_date store ticker (localDate serverOffset t1) =
            some a := by
          unfold get_stock_report_with_date
          rw [hl]
        rw [hg] at hsome
        exact Option.noConfusion hsome
      · exfalso
        have hc : store.rows.countP (reportKey ticker (localDate serverOffset t1)) =
            (store.rows.filter (reportKey ticker (localDate serverOffset t1))).length := by
          simp [List.countP_eq_length_filter]
        rw [hl] at hc
        simp only [List.length_cons] at hc
        omega
    have hany : store.rows.any (reportKey ticker (localDate serverOffset t1)) = false := by
      rw [List.any_eq_false]
      intro x hx
      intro hpx
      have : x ∈ store.rows.filter (reportKey ticker (localDate serverOffset t1)) :=
        List.mem_filter.2 ⟨hx, hpx⟩
      rw [hfilter] at this
      exact absurd this (List.not_mem_nil x)
    have hfirst : generate_report_with_ticker store ticker t1 t2 serverOffset g1 =
        ⟨g1, upsertReport store ⟨ticker, g1, localDate serverOffset t1⟩
          (localDate serverOffset t1), 1⟩ := by
      unfold generate_report_with_ticker
      dsimp only
      rw [hg, insert_stock_report_singleton, h2]
    have hupsert : upsertReport store ⟨ticker, g1, localDate serverOffset t1⟩
        (localDate serverOffset t1) =
        ⟨store.rows ++ [⟨store.nextId, ticker, g1, localDate serverOffset t1,
          localDate serverOffset t1⟩], store.nextId + 1⟩ := by
      unfold upsertReport
      simp [hany]
    have hget2 : get_stock_report_with_date
        (upsertReport store ⟨ticker, g1, localDate serverOffset t1⟩
          (localDate serverOffset t1)) ticker (localDate serverOffset t1) =
        some ⟨store.nextId, ticker, g1, localDate serverOffset t1,
          localDate serverOffset t1⟩ := by
      rw [hupsert]
      unfold get_stock_report_with_date
      rw [List.filter_append, hfilter]
      simp [reportKey]
    have hsecond : generate_report_with_ticker
        (upsertReport store ⟨ticker, g1, localDate serverOffset t1⟩
          (localDate serverOffset t1)) ticker t3 t4 serverOffset g2 =
        ⟨g1, upsertReport store ⟨ticker, g1, localDate serverOffset t1⟩
          (localDate serverOffset t1), 0⟩ := by
      unfold generate_report_with_ticker
      dsimp only
      rw [h3, hget2]
    rw [hfirst, hsecond]
    exact ⟨rfl, rfl⟩

/-- Witness for C5 (amended): empty store, both calls at instant 0, UTC
server. -/
theorem generate_report_second_call_cached_witness :
    (⟨[], 0⟩ : ReportStore).rows.countP (reportKey "AAPL" (localDate 0 0)) ≤ 1 ∧
    localDate 0 0 = localDate 0 0 ∧
    (generate_report_with_ticker
        (generate_report_with_ticker ⟨[], 0⟩ "AAPL" 0 0 0 "r1").store
        "AAPL" 0 0 0 "r2").generationCalls = 0 ∧
    (generate_report_with_ticker
        (generate_report_with_ticker ⟨[], 0⟩ "AAPL" 0 0 0 "r1").store
        "AAPL" 0 0 0 "r2").body =
      (generate_report_with_ticker ⟨[], 0⟩ "AAPL" 0 0 0 "r1").body :=
  ⟨by decide, rfl,
    (generate_report_second_call_cached ⟨[], 0⟩ "AAPL" 0 0 0 0 0 "r1" "r2"
      (by decide) rfl rfl).1,
    (generate_report_second_call_cached ⟨[], 0⟩ "AAPL" 0 0 0 0 0 "r1" "r2"
      (by decide) rfl rfl).2⟩

/-! ## Helper lemmas for the concurrent orchestrator model -/

theorem countP_set_of_getElem {α : Type} (l : List α) (i : Nat) (c a : α) (p : α → Bool)
    (h : l[i]? = some c) :
    (l.set i a).countP p + (if p c then 1 else 0) = l.countP p + (if p a then 1 else 0) := by
  induction l generalizing i with
  | nil => simp at h
  | cons x xs ih =>
    cases i with
    | zero =>
      simp only [List.getElem?_cons_zero, Option.some.injEq] at h
      subst h
      simp only [List.set_cons_zero, List.countP_cons]
      omega
    | succ j =>
      simp only [List.getElem?_cons_succ] at h
      have := ih j h
      simp only [List.set_cons_succ, List.countP_cons]
      omega

/-- The invariant tying the invocation counter to the per-caller `generated`
flags: the total equals the number of callers that generated, and a caller
that has not yet passed the generation step has its flag unset. -/
def LLMInvariant (sys : LLMSystem) : Prop :=
  sys.invocations = sys.callers.countP (fun c => c.generated) ∧
  ∀ c ∈ sys.callers,
    (c.phase = CallerPhase.start ∨ c.phase = CallerPhase.needGen) → c.generated = false

theorem stepCaller_invariant (ticker : String) (D : Int) (bodies : Nat → String)
    (sys : LLMSystem) (i : Nat) (h : LLMInvariant sys) :
    LLMInvariant (stepCaller ticker D bodies sys i) := by
  obtain ⟨hcount, hflags⟩ := h
  cases hci : sys.callers[i]? with
  | none =>
    simp only [stepCaller, hci]
    exact ⟨hcount, hflags⟩
  | some c =>
    have hcmem : c ∈ sys.callers := List.getElem?_mem hci
    have hset : ∀ (c' : Caller), c'.generated = c.generated →
        (sys.callers.set i c').countP (fun x => x.generated) =
          sys.callers.countP (fun x => x.generated) := by
      intro c' hgen
      have hc := countP_set_of_getElem sys.callers i c c' (fun x => x.generated) hci
      simp only [hgen] at hc
      omega
    have hmemset : ∀ (c' x : Caller), x ∈ sys.callers.set i c' → x ∈ sys.callers ∨ x = c' :=
      fun c' x hx => List.mem_or_eq_of_mem_set hx
    cases hph : c.phase with
    | start =>
      cases hgr : get_stock_report_with_date sys.store ticker D with
      | some r =>
        simp only [stepCaller, hci, hph, hgr]
        refine ⟨hcount.trans
          (hset ⟨CallerPhase.finished r.report, c.generated⟩ rfl).symm, ?_⟩
        intro x hx hpx
        rcases hmemset _ x hx with hmem | hx'
        · exact hflags x hmem hpx
        · subst hx'
          rcases hpx with hpx | hpx <;> exact CallerPhase.noConfusion hpx
      | none =>
        simp only [stepCaller, hci, hph, hgr]
        refine ⟨hcount.trans
          (hset ⟨CallerPhase.needGen, c.generated⟩ rfl).symm, ?_⟩
        intro x hx hpx
        rcases hmemset _ x hx with hmem | hx'
        · exact hflags x hmem hpx
        · subst hx'
          exact hflags c hcmem (Or.inl hph)
    | needGen =>
      have hcgen : c.generated = false := hflags c hcmem (Or.inr hph)
      have hc1 := countP_set_of_getElem sys.callers i c
        ⟨CallerPhase.ready (bodies sys.invocations), true⟩ (fun x => x.generated) hci
      simp only [hcgen] at hc1
      simp at hc1
      simp only [stepCaller, hci, hph]
      refine ⟨?_, ?_⟩
      · show sys.invocations + 1 = List.countP (fun x => x.generated)
          (sys.callers.set i ⟨CallerPhase.ready (bodies sys.invocations), true⟩)
        omega
      intro x hx hpx
      rcases hmemset _ x hx with hmem | hx'
      · exact hflags x hmem hpx
      · subst hx'
        rcases hpx with hpx | hpx <;> exact CallerPhase.noConfusion hpx
    | ready body =>
      simp only [stepCaller, hci, hph]
      refine ⟨hcount.trans
        (hset ⟨CallerPhase.finished body, c.generated⟩ rfl).symm, ?_⟩
      intro x hx hpx
      rcases hmemset _ x hx with hmem | hx'
      · exact hflags x hmem hpx
      · subst hx'
        rcases hpx with hpx | hpx <;> exact CallerPhase.noConfusion hpx
    | finished ret =>
      simp only [stepCaller, hci, hph]
      exact ⟨hcount, hflags⟩

theorem stepCaller_callers_length (ticker : String) (D : Int) (bodies : Nat → String)
    (sys : LLMSystem) (i : Nat) :
    (stepCaller ticker D bodies sys i).callers.length = sys.callers.length := by
  cases hci : sys.callers[i]? with
  | none => simp [stepCaller, hci]
  | some c =>
    cases hph : c.phase with
    | start =>
      cases hgr : get_stock_report_with_date sys.store ticker D <;>
        simp [stepCaller, hci, hph, hgr]
    | needGen => simp [stepCaller, hci, hph]
    | ready body => simp [stepCaller, hci, hph]
    | finished ret => simp [stepCaller, hci, hph]

theorem runSchedule_invariant (ticker : String) (D : Int) (bodies : Nat → String)
    (sched : List Nat) (sys : LLMSystem) (h : LLMInvariant sys) :
    LLMInvariant (runSchedule ticker D bodies sched sys) ∧
    (runSchedule ticker D bodies sched sys).callers.length = sys.callers.length := by
  induction sched generalizing sys with
  | nil => exact ⟨h, rfl⟩
  | cons i rest ih =>
    have hstep := stepCaller_invariant ticker D bodies sys i h
    have hrest := ih (stepCaller ticker D bodies sys i) hstep
    exact ⟨hrest.1, hrest.2.trans (stepCaller_callers_length ticker D bodies sys i)⟩

/-- Counterexample to C7 as stated: `generate_report_with_ticker` holds no
per-ticker lock, so the interleaving check₀, check₁, gen₀, persist₀, gen₁,
persist₁ of two same-ticker same-day callers on an empty cache performs two
invocations of the external generation service and hands the two callers two
different bodies. -/
theorem concurrent_generate_duplicates :
    (runSchedule "AAPL" 0 (fun k => if k = 0 then "r1" else "r2") [0, 1, 0, 0, 1, 1]
        (initSystem ⟨[], 0⟩ 2)).invocations = 2 ∧
    (runSchedule "AAPL" 0 (fun k => if k = 0 then "r1" else "r2") [0, 1, 0, 0, 1, 1]
        (initSystem ⟨[], 0⟩ 2)).callers =
      [⟨CallerPhase.finished "r1", true⟩, ⟨CallerPhase.finished "r2", true⟩] ∧
    "r1" ≠ "r2" := by
  decide

/-- C7 (amended): `generate_report_with_ticker` takes no lock at all (the
only module-level lock, `_llm_lock` in `dependencies.py`, is a single global
lock guarding `LLMService` singleton construction); the cache check is the
only guard, so under concurrency each of `n` callers invokes the external
generation service at most once — up to `n` invocations in total for every
interleaving, not at most one — and exactly one invocation per caller whose
cache check missed. -/
theorem concurrent_generate_bounded (store : ReportStore) (n : Nat) (ticker : String)
    (D : Int) (bodies : Nat → String) (sched : List Nat) :
    (runSchedule ticker D bodies sched (initSystem store n)).invocations =
      (runSchedule ticker D bodies sched (initSystem store n)).callers.countP
        (fun c => c.generated) ∧
    (runSchedule ticker D bodies sched (initSystem store n)).invocations ≤ n := by
  have hinit : LLMInvariant (initSystem store n) := by
    constructor
    · simp only [initSystem]
      rw [List.countP_eq_zero.2]
      intro c hc
      have : c = ⟨CallerPhase.start, false⟩ := (List.eq_of_mem_replicate hc)
      subst this
      simp
    · intro c hc _
      have : c = ⟨CallerPhase.start, false⟩ := (List.eq_of_mem_replicate hc)
      subst this
      rfl
  obtain ⟨⟨hcount, _⟩, hlen⟩ := runSchedule_invariant ticker D bodies sched _ hinit
  refine ⟨hcount, ?_⟩
  rw [hcount]
  calc (runSchedule ticker D bodies sched (initSystem store n)).callers.countP
        (fun c => c.generated) ≤
      (runSchedule ticker D bodies sched (initSystem store n)).callers.length :=
        List.countP_le_length _
    _ = n := by rw [hlen]; simp [initSystem]

/-! ## Helper lemmas for the retrieval ranking -/

theorem candidateChunks_mem (dist : EmbeddingVec → EmbeddingVec → ℚ) (qv : EmbeddingVec)
    (store : NewsStore) (ticker : String) (pool : Nat) :
    ∀ c ∈ candidateChunks dist qv store ticker pool,
      c ∈ store.chunks ∧ c.ticker = ticker := by
  intro c hc
  have h1 : c ∈ (store.chunks.filter (fun x => x.ticker == ticker)).mergeSort
      (chunkDistLe dist qv) := (List.take_sublist _ _).subset hc
  have h2 := List.mem_mergeSort.1 h1
  have h3 := List.mem_filter.1 h2
  exact ⟨h3.1, by simpa using h3.2⟩

theorem candidateChunks_sorted (dist : EmbeddingVec → EmbeddingVec → ℚ) (qv : EmbeddingVec)
    (store : NewsStore) (ticker : String) (pool : Nat) :
    (candidateChunks dist qv store ticker pool).Pairwise
      (fun a b => dist qv a.embedding ≤ dist qv b.embedding) := by
  have htrans : ∀ a b c : StockNewsChunkRow, chunkDistLe dist qv a b →
      chunkDistLe dist qv b c → chunkDistLe dist qv a c := by
    intro a b c hab hbc
    simp only [chunkDistLe, decide_eq_true_eq] at hab hbc ⊢
    exact le_trans hab hbc
  have htotal : ∀ a b : StockNewsChunkRow, chunkDistLe dist qv a b || chunkDistLe dist qv b a := by
    intro a b
    simp only [chunkDistLe, Bool.or_eq_true, decide_eq_true_eq]
    exact le_total _ _
  have hs : ((store.chunks.filter (fun x => x.ticker == ticker)).mergeSort
      (chunkDistLe dist qv)).Pairwise (fun a b => chunkDistLe dist qv a b) :=
    List.sorted_mergeSort htrans htotal _
  have hp : ((store.chunks.filter (fun x => x.ticker == ticker)).mergeSort
      (chunkDistLe dist qv)).Pairwise
      (fun a b => dist qv a.embedding ≤ dist qv b.embedding) :=
    List.Pairwise.imp (fun hab => by simpa [chunkDistLe] using hab) hs
  exact hp.sublist (List.take_sublist _ _)

theorem scoredParents_mem (dist : EmbeddingVec → EmbeddingVec → ℚ) (qv : EmbeddingVec)
    (store : NewsStore) (ticker : String) (pool : Nat) :
    ∀ x ∈ scoredParents dist qv store ticker pool,
      x.2 = parentScore dist qv store ticker pool x.1.id ∧
      x.1 ∈ store.news ∧
      ∃ c ∈ candidateChunks dist qv store ticker pool, c.parent_id = x.1.id := by
  intro x hx
  obtain ⟨n, hn, rfl⟩ := List.mem_map.1 hx
  have h3 := List.mem_filter.1 hn
  refine ⟨rfl, h3.1, ?_⟩
  obtain ⟨c, hc, hcp⟩ := List.any_eq_true.1 h3.2
  exact ⟨c, hc, by simpa using hcp⟩

theorem rankedParents_sorted (dist : EmbeddingVec → EmbeddingVec → ℚ) (qv : EmbeddingVec)
    (store : NewsStore) (ticker : String) (pool : Nat) :
    (rankedParents dist qv store ticker pool).Pairwise (fun a b => b.2 ≤ a.2) := by
  have htrans : ∀ a b c : StockNewsRow × ℚ, scoreDescLe a b → scoreDescLe b c →
      scoreDescLe a c := by
    intro a b c hab hbc
    simp only [scoreDescLe, decide_eq_true_eq] at hab hbc ⊢
    exact le_trans hbc hab
  have htotal : ∀ a b : StockNewsRow × ℚ, scoreDescLe a b || scoreDescLe b a := by
    intro a b
    simp only [scoreDescLe, Bool.or_eq_true, decide_eq_true_eq]
    exact le_total _ _
  have hs : (rankedParents dist qv store ticker pool).Pairwise
      (fun a b => scoreDescLe a b) :=
    List.sorted_mergeSort htrans htotal _
  exact List.Pairwise.imp (fun hab => by simpa [scoreDescLe] using hab) hs

/-- C1: when the query embeds to a vector of the expected dimension,
`get_stock_news` succeeds and returns at most `top_k` parent documents,
ordered by non-increasing aggregate score `parentScore` — the sum of
`(1 - cosine_distance)` over the document's candidate chunks — where the
candidate set is exactly the `candidate_pool` ticker-filtered chunks taken
in ascending distance order; every returned document owns at least one
candidate chunk carrying the requested ticker. -/
theorem get_stock_news_ranking (embedQuery : String → EmbeddingVec)
    (dist : EmbeddingVec → EmbeddingVec → ℚ) (store : NewsStore)
    (ticker query : String) (top_k candidate_pool : Nat)
    (hdim : (embedQuery query).length = embeddingDim) :
    ∃ docs, get_stock_news embedQuery dist store ticker query top_k candidate_pool =
        Except.ok docs ∧
      docs.length ≤ top_k ∧
      docs.Pairwise (fun a b =>
        parentScore dist (embedQuery query) store ticker candidate_pool b.id ≤
        parentScore dist (embedQuery query) store ticker candidate_pool a.id) ∧
      (∀ d ∈ docs, ∃ c ∈ candidateChunks dist (embedQuery query) store ticker candidate_pool,
        c.parent_id = d.id ∧ c.ticker = ticker) ∧
      (candidateChunks dist (embedQuery query) store ticker candidate_pool).Pairwise
        (fun a b => dist (embedQuery query) a.embedding ≤ dist (embedQuery query) b.embedding) ∧
      (candidateChunks dist (embedQuery query) store ticker candidate_pool).length ≤
        candidate_pool ∧
      (∀ c ∈ candidateChunks dist (embedQuery query) store ticker candidate_pool,
        c ∈ store.chunks ∧ c.ticker = ticker) ∧
      candidateChunks dist (embedQuery query) store ticker candidate_pool =
        ((store.chunks.filter (fun c => c.ticker == ticker)).mergeSort
          (chunkDistLe dist (embedQuery query))).take candidate_pool := by
  refine ⟨((rankedParents dist (embedQuery query) store ticker candidate_pool).take
      top_k).map (fun p => p.1), ?_, ?_, ?_, ?_,
    candidateChunks_sorted dist (embedQuery query) store ticker candidate_pool, ?_,
    candidateChunks_mem dist (embedQuery query) store ticker candidate_pool, rfl⟩
  · unfold get_stock_news
    dsimp only
    rw [if_pos (by simp [hdim] : ((embedQuery query).length == embeddingDim) = true)]
  · rw [List.length_map, List.length_take]
    exact min_le_left _ _
  · have hsorted := rankedParents_sorted dist (embedQuery query) store ticker candidate_pool
    have hmem : ∀ x ∈ rankedParents dist (embedQuery query) store ticker candidate_pool,
        x.2 = parentScore dist (embedQuery query) store ticker candidate_pool x.1.id := by
      intro x hx
      exact (scoredParents_mem dist (embedQuery query) store ticker candidate_pool x
        (List.mem_mergeSort.1 hx)).1
    have hp2 : (rankedParents dist (embedQuery query) store ticker
        candidate_pool).Pairwise (fun a b =>
          parentScore dist (embedQuery query) store ticker candidate_pool b.1.id ≤
          parentScore dist (embedQuery query) store ticker candidate_pool a.1.id) := by
      refine hsorted.imp_of_mem ?_
      intro a b ha hb hle
      rw [← hmem a ha, ← hmem b hb]
      exact hle
    have hp3 := hp2.sublist (List.take_sublist top_k _)
    exact List.pairwise_map.2 hp3
  · intro d hd
    obtain ⟨x, hxtake, rfl⟩ := List.mem_map.1 hd
    have hxr : x ∈ rankedParents dist (embedQuery query) store ticker candidate_pool :=
      (List.take_sublist _ _).subset hxtake
    have hxs := List.mem_mergeSort.1 hxr
    obtain ⟨-, -, c, hc, hcp⟩ :=
      scoredParents_mem dist (embedQuery query) store ticker candidate_pool x hxs
    exact ⟨c, hc, hcp,
      (candidateChunks_mem dist (embedQuery query) store ticker candidate_pool c hc).2⟩
  · unfold candidateChunks
    rw [List.length_take]
    exact min_le_left _ _

/-- Witness parameters for C1: a provider returning the 768-dimensional zero
vector, the zero distance, and a one-document one-chunk store. -/
def wEmbedQ : String → EmbeddingVec := fun _ => List.replicate embeddingDim 0

/-- Witness distance function for C1. -/
def wDist : EmbeddingVec → EmbeddingVec → ℚ := fun _ _ => 0

/-- Witness store for C1. -/
def wStore : NewsStore :=
  ⟨[⟨1, "AAPL", "title", "content", "u1"⟩], [⟨1, "AAPL", 1, [], "chunktext"⟩], 2, 2⟩

/-- Witness for C1 at the concrete parameters above. -/
theorem get_stock_news_ranking_witness :
    (wEmbedQ "q").length = embeddingDim ∧
    (∃ docs, get_stock_news wEmbedQ wDist wStore "AAPL" "q" 5 20 = Except.ok docs ∧
      docs.length ≤ 5 ∧
      docs.Pairwise (fun a b =>
        parentScore wDist (wEmbedQ "q") wStore "AAPL" 20 b.id ≤
        parentScore wDist (wEmbedQ "q") wStore "AAPL" 20 a.id) ∧
      (∀ d ∈ docs, ∃ c ∈ candidateChunks wDist (wEmbedQ "q") wStore "AAPL" 20,
        c.parent_id = d.id ∧ c.ticker = "AAPL") ∧
      (candidateChunks wDist (wEmbedQ "q") wStore "AAPL" 20).Pairwise
        (fun a b => wDist (wEmbedQ "q") a.embedding ≤ wDist (wEmbedQ "q") b.embedding) ∧
      (candidateChunks wDist (wEmbedQ "q") wStore "AAPL" 20).length ≤ 20 ∧
      (∀ c ∈ candidateChunks wDist (wEmbedQ "q") wStore "AAPL" 20,
        c ∈ wStore.chunks ∧ c.ticker = "AAPL") ∧
      candidateChunks wDist (wEmbedQ "q") wStore "AAPL" 20 =
        ((wStore.chunks.filter (fun c => c.ticker == "AAPL")).mergeSort
          (chunkDistLe wDist (wEmbedQ "q"))).take 20) :=
  ⟨by simp [wEmbedQ],
    get_stock_news_ranking wEmbedQ wDist wStore "AAPL" "q" 5 20 (by simp [wEmbedQ])⟩

end StockBot
